import Mathlib

/-!
Verification of the jtop process monitor (Go) against its natural-language
specification.  The definitions below are a shallow embedding of the Go
sources: `monitor.go` (Monitor), `jtop.go` (flag validation), the process
record and comparators (`Process`, `NewProcess`, `parseStatFile`, `By*`),
and the viewport controller (`UI`: `HandleDown`, `visibleProcesses`,
`numProcessesOnScreen`).  Machine integers are modelled as `Nat` with
explicit reduction modulo `2 ^ 64` where Go's `uint64` arithmetic can wrap,
and as `Int` where Go uses `int`.
-/

namespace JTop

/-! ## Go `uint64` arithmetic -/

/-- Modulus of Go's `uint64`. -/
def U64 : Nat := 2 ^ 64

/-- Go `uint64` subtraction `a - b`: wraps modulo `2 ^ 64`. -/
def u64sub (a b : Nat) : Nat := (a + (U64 - b % U64)) % U64

/-! ## The process record

Shallow embedding of `type Process struct` from the process source file
(`part_006`).  Tree-link fields (`Parent`, `Children`, `TreePrefix`) are
omitted: no claim mentions them and they carry no data used below. -/

structure Process where
  pid : Nat
  username : String
  name : String
  command : String
  alive : Bool
  state : Char
  ppid : Nat
  pgrp : Nat
  utime : Nat
  stime : Nat
  rss : Nat
  utimeDiff : Nat
  stimeDiff : Nat
  initializing : Bool
deriving Repr, DecidableEq

/-! ## Sort comparators

Each `Less` method of the `sort.Interface` implementations
`ByPid`, `ByUser`, `ByRSS`, `ByCPU`, `ByTime`, `ByState`, `ByName`. -/

/-- Less of `ByPid`: `p[i].Pid < p[j].Pid`. -/
def byPidLess (p q : Process) : Bool := decide (p.pid < q.pid)

/-- Less of `ByUser`: `p[i].User.Username < p[j].User.Username`. -/
def byUserLess (p q : Process) : Bool := decide (p.username.data < q.username.data)

/-- Less of `ByRSS`: `p[i].RSS > p[j].RSS`. -/
def byRSSLess (p q : Process) : Bool := decide (q.rss < p.rss)

/-- Less of `ByCPU`: compares `UtimeDiff + StimeDiff` descending, ties by
ascending `Pid`. -/
def byCPULess (p q : Process) : Bool :=
  let p1Diff := p.utimeDiff + p.stimeDiff
  let p2Diff := q.utimeDiff + q.stimeDiff
  if p1Diff = p2Diff then decide (p.pid < q.pid) else decide (p2Diff < p1Diff)

/-- Less of `ByTime`: compares `Utime + Stime` descending, ties by
ascending `Pid`. -/
def byTimeLess (p q : Process) : Bool :=
  let p1Total := p.utime + p.stime
  let p2Total := q.utime + q.stime
  if p1Total = p2Total then decide (p.pid < q.pid) else decide (p2Total < p1Total)

/-- Less of `ByState`: compares the state byte ascending, ties by ascending
`Pid`. -/
def byStateLess (p q : Process) : Bool :=
  if p.state = q.state then decide (p.pid < q.pid) else decide (p.state < q.state)

/-- Less of `ByName`: `p[i].Name < p[j].Name`. -/
def byNameLess (p q : Process) : Bool := decide (p.name.data < q.name.data)

/-- Behaviour of Go's `sort.Sort` on a two-element slice: for slices shorter
than seven elements `sort.Sort` runs plain insertion sort, which on two
elements performs the single comparison `Less(1, 0)` and swaps iff it is
true.  (`sort.Sort` is documented as not stable.) -/
def goSortPair {α : Type} (less : α → α → Bool) (a b : α) : List α :=
  if less b a then [b, a] else [a, b]

/-! ## Viewport (UI) state machine

Shallow embedding of the `UI` scroll state from the viewport source file
(`part_007`).  `start` and `selected` are Go `int`s, so `Int` here.  The
monitor list length `n` and the screen capacity `v = numProcessesOnScreen`
are passed explicitly. -/

/-- Number of header rows above the process table. -/
def headerRows : Int := 1

/-- Go `numProcessesOnScreen`: `ui.height - headerRows`. -/
def numProcessesOnScreen (height : Int) : Int := height - headerRows

/-- Scroll state of the viewport: `ui.start` and `ui.selected`. -/
structure Viewport where
  start : Int
  selected : Int
deriving Repr, DecidableEq

/-- Go `bottomSelected`: the bottom index is `len(list) - 1`, or
`numProcessesOnScreen - 1` when not all processes fit on the screen. -/
def bottomSelected (ui : Viewport) (n v : Int) : Bool :=
  let bottom := if n > v then v - 1 else n - 1
  decide (ui.selected = bottom)

/-- Go `topSelected`: `ui.selected == 0`. -/
def topSelected (ui : Viewport) : Bool := decide (ui.selected = 0)

/-- Go `moreProcessesDown`: `len(list) - ui.start > numProcessesOnScreen`. -/
def moreProcessesDown (ui : Viewport) (n v : Int) : Bool := decide (n - ui.start > v)

/-- Go `moreProcessesUp`: `ui.start > 0`. -/
def moreProcessesUp (ui : Viewport) : Bool := decide (ui.start > 0)

/-- Go `shouldScrollDown`: `bottomSelected && moreProcessesDown`. -/
def shouldScrollDown (ui : Viewport) (n v : Int) : Bool :=
  bottomSelected ui n v && moreProcessesDown ui n v

/-- Go `shouldScrollUp`: `topSelected && moreProcessesUp`. -/
def shouldScrollUp (ui : Viewport) : Bool :=
  topSelected ui && moreProcessesUp ui

/-- Go `HandleDown`: scroll down if possible, otherwise move the selection
down unless the bottom row is selected. -/
def handleDown (ui : Viewport) (n v : Int) : Viewport :=
  if shouldScrollDown ui n v then { ui with start := ui.start + 1 }
  else if !(bottomSelected ui n v) then { ui with selected := ui.selected + 1 }
  else ui

/-- Go `HandleUp`: scroll up if possible, otherwise move the selection up
unless the top row is selected. -/
def handleUp (ui : Viewport) : Viewport :=
  if shouldScrollUp ui then { ui with start := ui.start - 1 }
  else if !(topSelected ui) then { ui with selected := ui.selected - 1 }
  else ui

/-- Reconciliation step at the top of Go `visibleProcesses`: computes `end`
and mutates `ui.start` and `ui.selected`.  Returns the new scroll state and
the value of `end` used to slice `list[ui.start:end]`. -/
def visibleReconcile (ui : Viewport) (n v : Int) : Viewport × Int :=
  let e0 : Int := n
  let se :=
    if e0 > v then
      let e1 := ui.start + v
      if e1 > n then
        let diff := e1 - n
        (ui.start - diff, e1 - diff)
      else (ui.start, e1)
    else (ui.start, e0)
  let sel := if ui.selected ≥ se.2 then se.2 - 1 else ui.selected
  (⟨se.1, sel⟩, se.2)

/-- Spec invariant I2, viewport validity:
`start + visible_count ≤ max(visible_count, |list|)` and
`selected < visible_count` where `visible_count = min(|list|, height - headerRows)`,
together with non-negativity of `start` and `selected`. -/
def viewportValid (ui : Viewport) (n v : Int) : Prop :=
  0 ≤ ui.start ∧ ui.start + (min n v) ≤ max (min n v) n ∧
    0 ≤ ui.selected ∧ ui.selected < min n v

/-- Validity of the scroll state produced by the reconciliation step, as
stated by claim C1: `0 ≤ start`, `start ≤ end ≤ n`, `end = min(start + v, n)`,
and `selected < end - start` whenever `n > 0`, so that the slice
`list[start:end]` and the selected index are in bounds. -/
def scrollStateValid (ui : Viewport) (e n v : Int) : Prop :=
  0 ≤ ui.start ∧ ui.start ≤ e ∧ e ≤ n ∧ e = min (ui.start + v) n ∧
    (0 < n → ui.selected < e - ui.start)

/-! ## Columns and flag validation

Shallow embedding of the `Column` values from the viewport source file and
of `validateSortFlag` / `pidWhitelisted` from `jtop.go` / `monitor.go`. -/

/-- Display column: title, width, right alignment. -/
structure Column where
  title : String
  width : Int
  rightAlign : Bool
deriving Repr, DecidableEq

def PidColumn : Column := ⟨"PID", 5, true⟩
def UserColumn : Column := ⟨"USER", 8, false⟩
def RSSColumn : Column := ⟨"RSS", 5, true⟩
def MemPercentColumn : Column := ⟨"%MEM", 5, true⟩
def CPUPercentColumn : Column := ⟨"%CPU", 5, true⟩
def CPUTimeColumn : Column := ⟨"TIME+", 9, true⟩
def StateColumn : Column := ⟨"S", 1, false⟩
def CommandColumn : Column := ⟨"COMMAND", -1, false⟩

/-- The `Columns` slice, in source order. -/
def Columns : List Column :=
  [PidColumn, UserColumn, RSSColumn, MemPercentColumn, CPUPercentColumn,
   CPUTimeColumn, StateColumn, CommandColumn]

/-- Go `validateSortFlag` reduced to its acceptance predicate: the flag
value is accepted iff it equals the title of some column; otherwise the
program prints usage and exits with code 1. -/
def validateSortFlag (sortFlag : String) : Bool :=
  Columns.any (fun column => sortFlag == column.title)

/-- Default value of `-s` / `--sort` installed in `init`:
`CPUPercentColumn.Title`. -/
def defaultSortFlag : String := CPUPercentColumn.title

/-- Go `pidWhitelisted`: true when the whitelist is empty, otherwise true
iff the PID occurs in the whitelist. -/
def pidWhitelisted (pidWhitelist : List Nat) (pid : Nat) : Bool :=
  if pidWhitelist.length = 0 then true
  else pidWhitelist.any (fun p => p == pid)

/-! ## Byte-string primitives

The stat-line and cmdline manipulation works on `List Char`, standing for
Go byte strings (all delimiters involved are ASCII). -/

/-- Go `strings.IndexByte` (as an index, `none` for Go's `-1`): index of
the first occurrence of `c`. -/
def strIndexByteAux (l : List Char) (c : Char) : Option Nat :=
  match l with
  | [] => none
  | x :: xs => if x = c then some 0 else (strIndexByteAux xs c).map (· + 1)

/-- Go `strings.LastIndexByte` (as an index, `none` for Go's `-1`): index
of the last occurrence of `c`. -/
def strLastIndexByteAux (l : List Char) (c : Char) : Option Nat :=
  (strIndexByteAux l.reverse c).map (fun i => l.length - 1 - i)

/-- Go `strings.Split(s, " ")`: splits at every single space, keeping empty
fragments. -/
def splitOnSpace (l : List Char) : List (List Char) :=
  match l with
  | [] => [[]]
  | c :: rest =>
    if c = ' ' then [] :: splitOnSpace rest
    else
      match splitOnSpace rest with
      | [] => [[c]]
      | g :: gs => (c :: g) :: gs

/-- Extraction of the comm field and the remaining fields from one line of
`/proc/<pid>/stat`, as performed by `parseStatFile` in the process source
file: `commStart := IndexByte(line, '(') + 1`,
`commEnd := LastIndexByte(line, ')')`, the comm is `line[commStart:commEnd]`
and the fields are `Split(line[commEnd+2:], " ")`. -/
def parseStatLine (line : List Char) : List Char × List (List Char) :=
  let commStart : Int :=
    (match strIndexByteAux line '(' with
     | some i => (i : Int)
     | none => -1) + 1
  let commEnd : Int :=
    match strLastIndexByteAux line ')' with
    | some i => (i : Int)
    | none => -1
  ((line.take commEnd.toNat).drop commStart.toNat,
   splitOnSpace (line.drop (commEnd + 2).toNat))

/-- State byte recovered from the split fields: `values[statState][0]` with
`statState = 0`, i.e. the first byte of the first field. -/
def stateByteOfValues (values : List (List Char)) : Option Char :=
  values.head?.bind List.head?

/-- Go `strings.Replace(s, "\x00", " ", -1)`. -/
def replaceNulWithSpace (l : List Char) : List Char :=
  l.map (fun c => if c = Char.ofNat 0 then ' ' else c)

/-- Go `strings.TrimSpace` (restricted to ASCII space-like characters). -/
def trimSpace (l : List Char) : List Char :=
  ((l.dropWhile Char.isWhitespace).reverse.dropWhile Char.isWhitespace).reverse

/-- Go `path.Base`: the last element of a slash-separated path. -/
def pathBase (l : List Char) : List Char :=
  if l = [] then ['.']
  else
    let l1 := (l.reverse.dropWhile (· = '/')).reverse
    if l1 = [] then ['/']
    else
      match strLastIndexByteAux l1 '/' with
      | some i => l1.drop (i + 1)
      | none => l1

/-- Go `commandToName`: base name of argv[0] without arguments, except that
commands ending in a colon (for example "postgres: writer process") are
returned whole. -/
def commandToName (cmdline : List Char) : List Char :=
  let command := (splitOnSpace cmdline).headD []
  if command.getLast? = some ':' then cmdline
  else pathBase command

/-! ## Process lifecycle

Shallow embedding of `NewProcess`, `Process.Update`, `statProcDir`,
`parseStatFile` and `parseCmdlineFile` from the process source file.  The
procfs artefacts a single PID contributes in one tick are collected in a
`ProcEntry`; `none` components stand for failed reads (the PID vanished
mid-tick). -/

/-- Parsed numeric and comm content of `/proc/<pid>/stat` for one tick. -/
structure StatData where
  comm : List Char
  state : Char
  ppid : Nat
  pgrp : Nat
  utime : Nat
  stime : Nat
  rss : Nat
deriving Repr, DecidableEq

/-- One numeric `/proc` directory entry together with the contents of the
per-PID files for this tick.  `dirUid = none` models a failing
`syscall.Stat` on `/proc/<pid>`; `stat = none` / `cmdline = none` model
failing reads of the `stat` / `cmdline` files. -/
structure ProcEntry where
  pid : Nat
  dirUid : Option Nat
  stat : Option StatData
  cmdline : Option (List Char)
deriving Repr, DecidableEq

/-- Modelled from the spec: the user resolver `UserByUid` (its source file
is not among the given sources; only its callers are).  Per spec section
4.B, lookups go through a UID-keyed table, and when a user whitelist is
configured, UIDs outside the whitelist resolve to `NotWhitelisted`, an
error which the Monitor treats as "skip this process".  `users` maps UID to
username; an unknown UID is a lookup error (`none`). -/
def userByUid (users : List (Nat × String)) (userWhitelist : List String)
    (uid : Nat) : Option String :=
  match List.lookup uid users with
  | none => none
  | some name =>
    if userWhitelist.isEmpty then some name
    else if userWhitelist.contains name then some name
    else none

/-- Go `statProcDir`: stat the PID directory and resolve the owning user;
on success the `User` field is set. -/
def statProcDir (users : List (Nat × String)) (userWhitelist : List String)
    (p : Process) (e : ProcEntry) : Option Process :=
  match e.dirUid with
  | none => none
  | some uid =>
    match userByUid users userWhitelist uid with
    | none => none
    | some name => some { p with username := name }

/-- Go `hasEmptyCmdlineFile`: `IsKernelThread() || State == 'Z'`. -/
def hasEmptyCmdlineFile (p : Process) : Bool :=
  decide (p.pgrp = 0) || decide (p.state = 'Z')

/-- Field part of Go `parseStatFile`, applied after a successful read: sets
`Command`/`Name` from the comm when the cmdline file is empty (judged on
the record's previous state), then updates the counters, computes the
`uint64` differences against the previously stored values, and reclassifies
state `S` as `R` when the record is not initializing and a delta moved. -/
def applyStat (p : Process) (d : StatData) : Process :=
  let p1 :=
    if hasEmptyCmdlineFile p then
      { p with command := String.mk d.comm, name := String.mk d.comm }
    else p
  let newUtimeDiff := u64sub d.utime p1.utime
  let newStimeDiff := u64sub d.stime p1.stime
  let newState :=
    if ¬p1.initializing ∧ d.state = 'S' ∧ (0 < newUtimeDiff ∨ 0 < newStimeDiff)
    then 'R' else d.state
  { p1 with
    state := newState
    ppid := d.ppid
    pgrp := d.pgrp
    utime := d.utime
    stime := d.stime
    rss := d.rss
    utimeDiff := newUtimeDiff
    stimeDiff := newStimeDiff }

/-- Go `Process.Update`: `statProcDir` then `parseStatFile`.  The first
component is the (possibly partially mutated) record, the second records
success; the Monitor sets `Alive = true` only on success. -/
def processUpdate (users : List (Nat × String)) (userWhitelist : List String)
    (p : Process) (e : ProcEntry) : Process × Bool :=
  match statProcDir users userWhitelist p e with
  | none => (p, false)
  | some p1 =>
    match e.stat with
    | none => (p1, false)
    | some d => (applyStat p1 d, true)

/-- Go `parseCmdlineFile` content transformation: NUL bytes become spaces,
the result is trimmed, and `Name` is derived via `commandToName`. -/
def applyCmdline (p : Process) (raw : List Char) : Process :=
  let cmd := trimSpace (replaceNulWithSpace raw)
  { p with command := String.mk cmd, name := String.mk (commandToName cmd) }

/-- Zero value of `Process` for a fresh record: `NewProcess` sets only
`Pid` and `initializing`. -/
def blankProcess (pid : Nat) : Process :=
  { pid := pid, username := "", name := "", command := "", alive := false,
    state := Char.ofNat 0, ppid := 0, pgrp := 0, utime := 0, stime := 0,
    rss := 0, utimeDiff := 0, stimeDiff := 0, initializing := true }

/-- Go `NewProcess`: build a fresh record, run `Update`, parse the cmdline
file when it is non-empty, clear `initializing`; `none` when any step
fails. -/
def newProcess (users : List (Nat × String)) (userWhitelist : List String)
    (pid : Nat) (e : ProcEntry) : Option Process :=
  let r := processUpdate users userWhitelist (blankProcess pid) e
  if r.2 then
    let p1 := r.1
    if hasEmptyCmdlineFile p1 then some { p1 with initializing := false }
    else
      match e.cmdline with
      | none => none
      | some raw => some { applyCmdline p1 raw with initializing := false }
  else none

/-! ## The Monitor

Shallow embedding of `Monitor` and `Monitor.Update` from `monitor.go`.  Go
records live behind pointers shared between `m.List` and `m.Map`; the
embedding makes the heap explicit: records live at numeric addresses
(`heap`), `list` is the ordered slice of addresses and `map` associates a
PID with an address.  `next` is the allocator counter. -/

/-- Command-line configuration relevant to `Monitor.Update`. -/
structure Config where
  pidWhitelist : List Nat
  userWhitelist : List String
  kernelFlag : Bool
  treeFlag : Bool
  sortFlag : String
deriving Repr, DecidableEq

/-- One tick's view of procfs: the summed `cpu ` jiffies of `/proc/stat`
and the numeric children of `/proc`. -/
structure Snapshot where
  cpuTotal : Nat
  entries : List ProcEntry
deriving Repr, DecidableEq

/-- Monitor state: process table (`list`, `map`, `heap`, allocator `next`)
and the CPU-time scalars. -/
structure Monitor where
  list : List Nat
  map : List (Nat × Nat)
  heap : Nat → Option Process
  next : Nat
  cpuTimeTotal : Nat
  cpuTimeDiff : Nat

/-- Go `NewMonitor`: empty table, zeroed counters (`NumCPUs`, `MemTotal`,
`PageSize` play no part in any claim). -/
def initMonitor : Monitor :=
  { list := [], map := [], heap := fun _ => none, next := 0,
    cpuTimeTotal := 0, cpuTimeDiff := 0 }

/-- First loop of Go `Update`: `for _, p := range m.List { p.Alive = false }`.
The records are mutated through the list's pointers. -/
def markDead (m : Monitor) : Monitor :=
  { m with heap := fun a =>
      if a ∈ m.list then (m.heap a).map (fun p => { p with alive := false })
      else m.heap a }

/-- Body of the entry loop of Go `Update` for one numeric `/proc` child:
skip non-whitelisted PIDs; update known records (marking them alive on
success); construct and insert new records, filtering kernel threads when
`kernelFlag` is unset.  (The `heap a = none` branch cannot occur: a Go map
never yields a dangling pointer; it is dead code under the monitor
invariant.) -/
def updateEntry (cfg : Config) (users : List (Nat × String))
    (m : Monitor) (e : ProcEntry) : Monitor :=
  if ¬pidWhitelisted cfg.pidWhitelist e.pid then m
  else
    match List.lookup e.pid m.map with
    | some a =>
      match m.heap a with
      | none => m
      | some p =>
        let r := processUpdate users cfg.userWhitelist p e
        let p2 := if r.2 then { r.1 with alive := true } else r.1
        { m with heap := fun x => if x = a then some p2 else m.heap x }
    | none =>
      match newProcess users cfg.userWhitelist e.pid e with
      | none => m
      | some p =>
        if p.pgrp = 0 ∧ ¬cfg.kernelFlag then m
        else
          let p2 := { p with alive := true }
          { m with
            list := m.list ++ [m.next]
            map := (p2.pid, m.next) :: m.map
            heap := fun x => if x = m.next then some p2 else m.heap x
            next := m.next + 1 }

/-- Aliveness of the record stored at address `a` (dangling addresses
count as dead; they cannot occur under the monitor invariant). -/
def isAliveAt (heap : Nat → Option Process) (a : Nat) : Bool :=
  match heap a with
  | some p => p.alive
  | none => false

/-- The PIDs of the `!Alive` records in the list: the keys Go
`removeDeadProcesses` deletes from the map. -/
def deadPidsOf (m : Monitor) : List Nat :=
  (m.list.filter (fun a => !isAliveAt m.heap a)).filterMap
    (fun a => (m.heap a).map Process.pid)

/-- Go `removeDeadProcesses`: the backwards removal loop keeps exactly the
`Alive` records, in order, and deletes the PID of every dead record from
the map. -/
def removeDead (m : Monitor) : Monitor :=
  { m with
    list := m.list.filter (isAliveAt m.heap)
    map := m.map.filter (fun kv => !((deadPidsOf m).contains kv.1)) }

/-- Standard insertion into a list sorted by `less`. -/
def insertSorted {α : Type} (less : α → α → Bool) (x : α) : List α → List α
  | [] => [x]
  | y :: ys => if less y x then y :: insertSorted less x ys else x :: y :: ys

/-- Insertion sort; stands in for Go's (unstable) `sort.Sort`, whose only
property used below is that it permutes the slice. -/
def insSort {α : Type} (less : α → α → Bool) : List α → List α
  | [] => []
  | x :: xs => insertSorted less x (insSort less xs)

/-- The comparator selected by the `switch sortFlag` in Go `Update`;
`none` when no case matches (then the list is left unsorted). -/
def chooseLess (sortFlag : String) : Option (Process → Process → Bool) :=
  if sortFlag == PidColumn.title then some byPidLess
  else if sortFlag == UserColumn.title then some byUserLess
  else if sortFlag == RSSColumn.title ∨ sortFlag == MemPercentColumn.title then some byRSSLess
  else if sortFlag == CPUPercentColumn.title then some byCPULess
  else if sortFlag == CPUTimeColumn.title then some byTimeLess
  else if sortFlag == StateColumn.title then some byStateLess
  else if sortFlag == CommandColumn.title then some byNameLess
  else none

/-- Comparator lifted to heap addresses. -/
def addrLess (heap : Nat → Option Process) (less : Process → Process → Bool)
    (a b : Nat) : Bool :=
  match heap a, heap b with
  | some p, some q => less p q
  | _, _ => false

/-- Sorting step at the end of Go `Update`: in tree mode sort by PID
(the subsequent `associateProcesses` only fills tree links, which carry no
data used in any claim), otherwise sort by the comparator matching
`sortFlag`. -/
def sortMonitor (cfg : Config) (m : Monitor) : Monitor :=
  if cfg.treeFlag then
    { m with list := insSort (addrLess m.heap byPidLess) m.list }
  else
    match chooseLess cfg.sortFlag with
    | some less => { m with list := insSort (addrLess m.heap less) m.list }
    | none => m

/-- Go `Monitor.Update` on one snapshot: recompute the CPU-time scalars
(`CPUTimeDiff` is `uint64` subtraction of the previous total from the new
one), mark all records dead, walk the `/proc` entries, prune dead records,
sort. -/
def monitorUpdate (cfg : Config) (users : List (Nat × String))
    (m : Monitor) (snap : Snapshot) : Monitor :=
  let m1 := { m with
    cpuTimeTotal := snap.cpuTotal
    cpuTimeDiff := u64sub snap.cpuTotal m.cpuTimeTotal }
  let m2 := markDead m1
  let m3 := snap.entries.foldl (updateEntry cfg users) m2
  let m4 := removeDead m3
  sortMonitor cfg m4

/-- A run of the monitor: `NewMonitor` followed by one `Update` per
snapshot. -/
def runMonitor (cfg : Config) (users : List (Nat × String))
    (snaps : List Snapshot) : Monitor :=
  snaps.foldl (monitorUpdate cfg users) initMonitor

/-- Spec invariant I1, as claim C8 states it: list and map have the same
size, every listed record is stored in the map under its own PID, and every
map entry appears in the list. -/
def listMapSynced (m : Monitor) : Prop :=
  m.list.length = m.map.length ∧
  (∀ a ∈ m.list, ∃ p, m.heap a = some p ∧ List.lookup p.pid m.map = some a) ∧
  (∀ kv ∈ m.map, kv.2 ∈ m.list)

/-- Internal invariant of the monitor, strong enough for induction:
distinct addresses, allocator freshness, the I1 correspondences, and
distinct map keys. -/
def MonitorInv (m : Monitor) : Prop :=
  m.list.Nodup ∧
  (∀ a ∈ m.list, a < m.next) ∧
  (∀ a ∈ m.list, ∃ p, m.heap a = some p ∧ List.lookup p.pid m.map = some a) ∧
  (∀ kv ∈ m.map, kv.2 ∈ m.list ∧ ∃ p, m.heap kv.2 = some p ∧ p.pid = kv.1) ∧
  (m.map.map Prod.fst).Nodup

/-! ## Concrete sample data used by witnesses and counterexamples -/

/-- A stat read with counters `utime = 7`, `stime = 3`. -/
def sampleStat7 : StatData := ⟨"bash".data, 'S', 1, 42, 7, 3, 100⟩

/-- A later stat read whose `utime` advanced to 9 while `stime` stayed 3. -/
def sampleStat9 : StatData := ⟨"bash".data, 'S', 1, 42, 9, 3, 100⟩

/-- A procfs entry for PID 42 owned by UID 0 with `sampleStat7`. -/
def sampleEntry : ProcEntry := ⟨42, some 0, some sampleStat7, some "/bin/bash".data⟩

/-- The record `NewProcess` builds from `sampleEntry` (users table maps
UID 0 to root, no user whitelist). -/
def sampleProc : Process :=
  ⟨42, "root", "bash", "/bin/bash", false, 'S', 1, 42, 7, 3, 100, 7, 3, false⟩

/-- Configuration with a user whitelist containing only alice. -/
def sampleCfg : Config := ⟨[], ["alice"], false, false, "PID"⟩

/-- UID table mapping UID 10 to alice. -/
def sampleUsers : List (Nat × String) := [(10, "alice")]

/-- One tick listing a single process, PID 7 owned by UID 10. -/
def sampleSnap : Snapshot :=
  ⟨100, [⟨7, some 10, some ⟨"foo".data, 'S', 1, 7, 5, 2, 9⟩,
    some "/bin/foo".data⟩]⟩

/-- The record held by the monitor after one `Update` on `sampleSnap`. -/
def sampleRunProc : Process :=
  ⟨7, "alice", "foo", "/bin/foo", true, 'S', 1, 7, 5, 2, 9, 5, 2, false⟩

/-! ## Arithmetic lemmas about Go `uint64` subtraction -/

theorem u64_pos : 0 < U64 := by norm_num [U64]

theorem u64sub_self (a : Nat) : u64sub a a = 0 := by
  unfold u64sub
  have h1 : a % U64 < U64 := Nat.mod_lt _ u64_pos
  have h2 := Nat.div_add_mod a U64
  have h3 : a + (U64 - a % U64) = U64 * (a / U64 + 1) := by
    rw [Nat.mul_add, Nat.mul_one]; omega
  rw [h3, Nat.mul_mod_right]

theorem u64sub_zero_right (a : Nat) : u64sub a 0 = a % U64 := by
  unfold u64sub
  rw [Nat.zero_mod, Nat.sub_zero, Nat.add_mod_right]

theorem u64sub_eq_sub {a b : Nat} (hba : b ≤ a) (ha : a < U64) :
    u64sub a b = a - b := by
  unfold u64sub
  have hb : b % U64 = b := Nat.mod_eq_of_lt (lt_of_le_of_lt hba ha)
  have hbU : b ≤ U64 := le_of_lt (lt_of_le_of_lt hba ha)
  rw [hb, show a + (U64 - b) = U64 + (a - b) by omega, Nat.add_mod_left]
  exact Nat.mod_eq_of_lt (by omega)

theorem u64sub_eq_zero_iff {a b : Nat} (hba : b ≤ a) (ha : a < U64) :
    u64sub a b = 0 ↔ a = b := by
  rw [u64sub_eq_sub hba ha]; omega

/-! ## Claim C1

The claim asserts that after the reconciliation step in `visibleProcesses`
the scroll state is valid for every list length, including a list that
shrank below `start` since the last render.  The code only adjusts `start`
inside the `end > numProcessesOnScreen` branch, so when the list shrinks
below the screen capacity while `start > 0`, `start` keeps its stale value:
with ten visible rows, a previously valid state `start = 5, selected = 9`
(valid for the sixteen processes of the previous tick) and a list shrunk to
three processes, the code leaves `start = 5` with `end = 3`, and the Go
slice `m.List[5:3]` panics with an out-of-range error. -/
theorem C1_reconcile_leaves_stale_start :
    viewportValid ⟨5, 9⟩ 16 10 ∧
    visibleReconcile ⟨5, 9⟩ 3 10 = (⟨5, 2⟩, 3) ∧
    ¬scrollStateValid ⟨5, 2⟩ 3 3 10 := by
  refine ⟨?_, by decide, ?_⟩
  · unfold viewportValid
    decide
  · unfold scrollStateValid
    decide

/-! ## Claim C4

Counterexample: two distinct processes owned by the same user, the larger
PID stored first.  Go's `sort.Sort` on this two-element slice under
`ByUser.Less` (which compares usernames only) performs no swap, so the
order produced keeps PID 5 before PID 3: the tie is not broken by
ascending PID. -/
theorem C4_user_tie_not_broken_by_pid :
    byUserLess { blankProcess 5 with username := "alice" }
        { blankProcess 3 with username := "alice" } = false ∧
    byUserLess { blankProcess 3 with username := "alice" }
        { blankProcess 5 with username := "alice" } = false ∧
    goSortPair byUserLess { blankProcess 5 with username := "alice" }
        { blankProcess 3 with username := "alice" } =
      [{ blankProcess 5 with username := "alice" },
       { blankProcess 3 with username := "alice" }] ∧
    ({ blankProcess 5 with username := "alice" } : Process).username =
      ({ blankProcess 3 with username := "alice" } : Process).username ∧
    ({ blankProcess 3 with username := "alice" } : Process).pid <
      ({ blankProcess 5 with username := "alice" } : Process).pid := by
  refine ⟨by decide, by decide, by decide, by decide, by decide⟩

/-- Amended claim C4: of the seven comparators, exactly the CPU-delta,
cumulative-CPU-time and state orders break ties by ascending PID (their
`Less` functions compare PIDs on a tie, and on a tie the comparison holds
iff the first PID is smaller); the PID order cannot tie on distinct list
entries, while the username, RSS and name orders have no PID tie-break, so
the unstable `sort.Sort` may emit tied processes in either order. -/
theorem C4_cpu_time_state_ties_broken_by_pid :
    (∀ p q : Process, p.utimeDiff + p.stimeDiff = q.utimeDiff + q.stimeDiff →
      (byCPULess p q = true ↔ p.pid < q.pid)) ∧
    (∀ p q : Process, p.utime + p.stime = q.utime + q.stime →
      (byTimeLess p q = true ↔ p.pid < q.pid)) ∧
    (∀ p q : Process, p.state = q.state →
      (byStateLess p q = true ↔ p.pid < q.pid)) := by
  refine ⟨?_, ?_, ?_⟩ <;> intro p q h
  · simp [byCPULess, h]
  · simp [byTimeLess, h]
  · simp [byStateLess, h]

/-- Witness for the amended claim C4, at a concrete tied pair with PIDs 3
and 5. -/
theorem C4_cpu_time_state_ties_broken_by_pid_witness :
    byCPULess (blankProcess 3) (blankProcess 5) = true ∧
    byTimeLess (blankProcess 3) (blankProcess 5) = true ∧
    byStateLess (blankProcess 3) (blankProcess 5) = true :=
  ⟨(C4_cpu_time_state_ties_broken_by_pid.1 (blankProcess 3) (blankProcess 5)
      rfl).mpr (by decide),
   (C4_cpu_time_state_ties_broken_by_pid.2.1 (blankProcess 3) (blankProcess 5)
      rfl).mpr (by decide),
   (C4_cpu_time_state_ties_broken_by_pid.2.2 (blankProcess 3) (blankProcess 5)
      rfl).mpr (by decide)⟩

/-! ## Claim C6 -/

/-- Counterexample to claim C6: the accepted sort values are the column
titles, so the claimed value "cpu" is rejected (the program would print
usage and exit 1 on it), the title "S" — absent from the claimed set — is
accepted, and the default is "%CPU", not "cpu". -/
theorem C6_lowercase_names_rejected :
    validateSortFlag "cpu" = false ∧
    validateSortFlag "S" = true ∧
    defaultSortFlag ≠ "cpu" := by
  refine ⟨by decide, by decide, by decide⟩

/-- Amended claim C6: `validateSortFlag` accepts exactly the eight column
titles PID, USER, RSS, %MEM, %CPU, TIME+, S, COMMAND; the default installed
for `-s`/`--sort` is `%CPU`.  Any other value makes `validateSortFlag`
report failure, upon which `jtop.go` prints usage and exits with code 1
before the main loop. -/
theorem C6_accepts_exactly_column_titles :
    (∀ s : String, validateSortFlag s = true ↔
      (s = "PID" ∨ s = "USER" ∨ s = "RSS" ∨ s = "%MEM" ∨ s = "%CPU" ∨
       s = "TIME+" ∨ s = "S" ∨ s = "COMMAND")) ∧
    defaultSortFlag = "%CPU" := by
  refine ⟨?_, rfl⟩
  intro s
  simp only [validateSortFlag, Columns, PidColumn, UserColumn, RSSColumn,
    MemPercentColumn, CPUPercentColumn, CPUTimeColumn, StateColumn,
    CommandColumn, List.any_cons, List.any_nil, Bool.or_eq_true,
    beq_iff_eq]
  tauto

/-! ## Claim C7 -/

/-- Helper: rendering an empty list from an unscrolled state whose
`selected` is at least `-1` normalises the scroll state to
`start = 0, selected = -1`.  Note that the reconciliation only clamps
`selected` downward (`if ui.selected >= end`), never upward, so a
`selected` below `-1` is left as it is. -/
theorem visibleReconcile_empty (ui : Viewport) (v : Int)
    (hstart : ui.start = 0) (hsel : -1 ≤ ui.selected) (hv : 0 ≤ v) :
    visibleReconcile ui 0 v = (⟨0, -1⟩, 0) := by
  simp only [visibleReconcile, hstart, gt_iff_lt]
  rw [if_neg (by omega : ¬(v < (0:Int)))]
  simp only [Prod.mk.injEq, Viewport.mk.injEq]
  refine ⟨⟨trivial, ?_⟩, trivial⟩
  split_ifs with h <;> omega

/-- Helper: on an empty list, in the unscrolled state with
`selected = -1` (the bottom index of an empty list), `HandleDown` changes
nothing: `bottomSelected` holds and `moreProcessesDown` fails. -/
theorem handleDown_empty_noop (ui : Viewport) (v : Int)
    (hstart : ui.start = 0) (hv : 0 ≤ v) (hsel : ui.selected = -1) :
    handleDown ui 0 v = ui := by
  have hb : bottomSelected ui 0 v = true := by
    unfold bottomSelected
    rw [if_neg (by omega : ¬((0:Int) > v))]
    simp [hsel]
  have hmd : moreProcessesDown ui 0 v = false := by
    unfold moreProcessesDown
    exact decide_eq_false (by omega)
  unfold handleDown shouldScrollDown
  rw [hb, hmd]
  simp

/-- Helper: on an empty list, in an unscrolled state with any `selected`
other than `-1` (for example `-2`, reached by pressing Up at `-1`),
`bottomSelected` fails and `HandleDown` increments `selected`. -/
theorem handleDown_empty_increments (ui : Viewport) (v : Int)
    (hstart : ui.start = 0) (hv : 0 ≤ v) (hsel : ¬(ui.selected = -1)) :
    handleDown ui 0 v = { ui with selected := ui.selected + 1 } := by
  have hb : bottomSelected ui 0 v = false := by
    unfold bottomSelected
    rw [if_neg (by omega : ¬((0:Int) > v))]
    exact decide_eq_false hsel
  unfold handleDown shouldScrollDown
  rw [hb]
  simp

/-- Counterexample to claim C7: on an empty list the Down event is not a
no-op in every reachable state.  From the state the renderer leaves after
the first empty-list render, `(0, -1)`, one Up press yields `(0, -2)`
(`topSelected` is false at `-1`, so `HandleUp` decrements), the next
render leaves `(0, -2)` unchanged (the reconciliation never clamps
`selected` upward), and `HandleDown` then increments `selected` back to
`-1`, changing the viewport state. -/
theorem C7_down_not_noop_after_up :
    (visibleReconcile ⟨0, 0⟩ 0 24).1 = ⟨0, -1⟩ ∧
    handleUp (⟨0, -1⟩ : Viewport) = ⟨0, -2⟩ ∧
    (visibleReconcile ⟨0, -2⟩ 0 24).1 = ⟨0, -2⟩ ∧
    handleDown (⟨0, -2⟩ : Viewport) 0 24 = ⟨0, -1⟩ ∧
    ¬(handleDown (⟨0, -2⟩ : Viewport) 0 24 = ⟨0, -2⟩) := by
  refine ⟨by decide, by decide, by decide, by decide, by decide⟩

/-- Amended claim C7: when the monitor's list is empty, `HandleDown` never
changes `start`; it leaves `selected` unchanged exactly in the state the
renderer establishes after an empty-list render from an unscrolled state
with `selected ≥ -1`, namely `start = 0, selected = -1`.  Since the
renderer does not clamp `selected` upward, Up presses can drive `selected`
below `-1`, and from every such state `HandleDown` increments `selected`
by one — so on an empty list Down is a no-op at `selected = -1` but not in
general. -/
theorem C7_down_on_empty_list :
    (∀ (ui : Viewport) (v : Int), ui.start = 0 → -1 ≤ ui.selected → 0 ≤ v →
      (visibleReconcile ui 0 v).1 = ⟨0, -1⟩) ∧
    (∀ (ui : Viewport) (v : Int), ui.start = 0 → 0 ≤ v →
      (handleDown ui 0 v).start = ui.start) ∧
    (∀ (ui : Viewport) (v : Int), ui.start = 0 → 0 ≤ v → ui.selected = -1 →
      handleDown ui 0 v = ui) ∧
    (∀ (ui : Viewport) (v : Int), ui.start = 0 → 0 ≤ v → ¬(ui.selected = -1) →
      handleDown ui 0 v = { ui with selected := ui.selected + 1 }) := by
  refine ⟨?_, ?_, ?_, ?_⟩
  · intro ui v h1 h2 h3
    rw [visibleReconcile_empty ui v h1 h2 h3]
  · intro ui v h1 hv
    by_cases hsel : ui.selected = -1
    · rw [handleDown_empty_noop ui v h1 hv hsel]
    · rw [handleDown_empty_increments ui v h1 hv hsel]
  · intro ui v h1 hv hsel
    exact handleDown_empty_noop ui v h1 hv hsel
  · intro ui v h1 hv hsel
    exact handleDown_empty_increments ui v h1 hv hsel

/-- Witness for the amended claim C7 at concrete empty-list states with 24
visible rows: the renderer normalises `(0, 0)` to `(0, -1)`, Down is a
no-op at `(0, -1)`, moves `(0, -2)` to `(0, -1)`, and never changes
`start`. -/
theorem C7_down_on_empty_list_witness :
    (visibleReconcile ⟨0, 0⟩ 0 24).1 = ⟨0, -1⟩ ∧
    (handleDown ⟨0, 5⟩ 0 24).start = 0 ∧
    handleDown (⟨0, -1⟩ : Viewport) 0 24 = ⟨0, -1⟩ ∧
    handleDown (⟨0, -2⟩ : Viewport) 0 24 = ⟨0, -1⟩ :=
  ⟨C7_down_on_empty_list.1 ⟨0, 0⟩ 24 rfl (by decide) (by decide),
   C7_down_on_empty_list.2.1 ⟨0, 5⟩ 24 rfl (by decide),
   C7_down_on_empty_list.2.2.1 ⟨0, -1⟩ 24 rfl (by decide) rfl,
   (C7_down_on_empty_list.2.2.2 ⟨0, -2⟩ 24 rfl (by decide)
      (by decide)).trans (by decide)⟩

/-! ## Claim C10 -/

/-- Claim C10: with an empty PID allow-list every PID is whitelisted (so no
`/proc` entry is skipped by the whitelist check in `Update`); with a
non-empty allow-list exactly its members are; and an entry whose PID fails
the check leaves the monitor unchanged. -/
theorem C10_pid_whitelist_semantics :
    (∀ pid : Nat, pidWhitelisted [] pid = true) ∧
    (∀ (wl : List Nat) (pid : Nat), wl ≠ [] →
      (pidWhitelisted wl pid = true ↔ pid ∈ wl)) ∧
    (∀ (cfg : Config) (users : List (Nat × String)) (m : Monitor) (e : ProcEntry),
      pidWhitelisted cfg.pidWhitelist e.pid = false →
      updateEntry cfg users m e = m) := by
  refine ⟨fun pid => rfl, ?_, ?_⟩
  · intro wl pid hwl
    have hlen : ¬(wl.length = 0) := by
      simpa [List.length_eq_zero] using hwl
    simp only [pidWhitelisted, if_neg hlen, List.any_eq_true, beq_iff_eq]
    constructor
    · rintro ⟨x, hx, rfl⟩; exact hx
    · intro hx; exact ⟨pid, hx, rfl⟩
  · intro cfg users m e h
    unfold updateEntry
    rw [if_pos (by simp [h])]

/-- Witness for claim C10: PID 3 passes its own singleton allow-list, and
an entry for PID 3 is skipped entirely under the allow-list `[2]`. -/
theorem C10_pid_whitelist_semantics_witness :
    pidWhitelisted [3] 3 = true ∧
    updateEntry ⟨[2], [], false, false, "PID"⟩ [] initMonitor ⟨3, none, none, none⟩ =
      initMonitor :=
  ⟨(C10_pid_whitelist_semantics.2.1 [3] 3 (by decide)).mpr (by decide),
   C10_pid_whitelist_semantics.2.2 ⟨[2], [], false, false, "PID"⟩ [] initMonitor
     ⟨3, none, none, none⟩ (by decide)⟩

/-! ## CPU-time scalars through `Monitor.Update` -/

theorem updateEntry_cpu (cfg : Config) (users : List (Nat × String))
    (m : Monitor) (e : ProcEntry) :
    (updateEntry cfg users m e).cpuTimeDiff = m.cpuTimeDiff ∧
    (updateEntry cfg users m e).cpuTimeTotal = m.cpuTimeTotal := by
  unfold updateEntry
  repeat' split
  all_goals exact ⟨rfl, rfl⟩

theorem foldl_updateEntry_cpu (cfg : Config) (users : List (Nat × String)) :
    ∀ (es : List ProcEntry) (m : Monitor),
      (es.foldl (updateEntry cfg users) m).cpuTimeDiff = m.cpuTimeDiff ∧
      (es.foldl (updateEntry cfg users) m).cpuTimeTotal = m.cpuTimeTotal
  | [], _ => ⟨rfl, rfl⟩
  | e :: es, m => by
    simp only [List.foldl_cons]
    have h1 := updateEntry_cpu cfg users m e
    have h2 := foldl_updateEntry_cpu cfg users es (updateEntry cfg users m e)
    exact ⟨h2.1.trans h1.1, h2.2.trans h1.2⟩

theorem removeDead_cpu (m : Monitor) :
    (removeDead m).cpuTimeDiff = m.cpuTimeDiff ∧
    (removeDead m).cpuTimeTotal = m.cpuTimeTotal :=
  ⟨rfl, rfl⟩

theorem sortMonitor_cpu (cfg : Config) (m : Monitor) :
    (sortMonitor cfg m).cpuTimeDiff = m.cpuTimeDiff ∧
    (sortMonitor cfg m).cpuTimeTotal = m.cpuTimeTotal := by
  unfold sortMonitor
  repeat' split
  all_goals exact ⟨rfl, rfl⟩

theorem monitorUpdate_cpuTimeDiff (cfg : Config) (users : List (Nat × String))
    (m : Monitor) (snap : Snapshot) :
    (monitorUpdate cfg users m snap).cpuTimeDiff = u64sub snap.cpuTotal m.cpuTimeTotal := by
  unfold monitorUpdate
  exact (sortMonitor_cpu _ _).1.trans ((removeDead_cpu _).1.trans
    ((foldl_updateEntry_cpu _ _ _ _).1.trans rfl))

/-! ## Claim C3 -/

/-- Counterexample to claim C3: on the first `Update` after `NewMonitor`
the previously stored total is 0, so `CPUTimeDiff` is set to the whole
newly read total (here 100), not to 0. -/
theorem C3_first_update_diff_is_total :
    (monitorUpdate ⟨[], [], false, false, "%CPU"⟩ [] initMonitor
        ⟨100, []⟩).cpuTimeDiff = 100 ∧ (100 : Nat) ≠ 0 := by
  refine ⟨?_, by decide⟩
  rw [monitorUpdate_cpuTimeDiff]
  decide

/-- Amended claim C3: on every `Update`, `cpu_time_diff` is the `uint64`
difference of the newly read total and the previously stored one; it is 0
when the total did not change, and on the first `Update` after
`NewMonitor` it equals the newly read total itself (the prior total being
0), not 0. -/
theorem C3_cpu_diff_semantics :
    (∀ (cfg : Config) (users : List (Nat × String)) (m : Monitor) (snap : Snapshot),
      snap.cpuTotal = m.cpuTimeTotal →
      (monitorUpdate cfg users m snap).cpuTimeDiff = 0) ∧
    (∀ (cfg : Config) (users : List (Nat × String)) (snap : Snapshot),
      snap.cpuTotal < U64 →
      (monitorUpdate cfg users initMonitor snap).cpuTimeDiff = snap.cpuTotal) := by
  constructor
  · intro cfg users m snap h
    rw [monitorUpdate_cpuTimeDiff, h, u64sub_self]
  · intro cfg users snap h
    rw [monitorUpdate_cpuTimeDiff]
    show u64sub snap.cpuTotal 0 = snap.cpuTotal
    rw [u64sub_zero_right, Nat.mod_eq_of_lt h]

/-- Witness for the amended claim C3: an unchanged total of 5 yields diff
0, and a first update with total 100 yields diff 100. -/
theorem C3_cpu_diff_semantics_witness :
    (monitorUpdate ⟨[], [], false, false, "%CPU"⟩ []
        { initMonitor with cpuTimeTotal := 5 } ⟨5, []⟩).cpuTimeDiff = 0 ∧
    (monitorUpdate ⟨[], [], false, false, "%CPU"⟩ [] initMonitor
        ⟨100, []⟩).cpuTimeDiff = 100 :=
  ⟨C3_cpu_diff_semantics.1 ⟨[], [], false, false, "%CPU"⟩ []
      { initMonitor with cpuTimeTotal := 5 } ⟨5, []⟩ rfl,
   C3_cpu_diff_semantics.2 ⟨[], [], false, false, "%CPU"⟩ [] ⟨100, []⟩
      (by norm_num [U64])⟩

/-! ## Field lemmas for the process operations -/

theorem applyStat_utimeDiff (p : Process) (d : StatData) :
    (applyStat p d).utimeDiff = u64sub d.utime p.utime := by
  simp only [applyStat]
  split_ifs <;> rfl

theorem applyStat_stimeDiff (p : Process) (d : StatData) :
    (applyStat p d).stimeDiff = u64sub d.stime p.stime := by
  simp only [applyStat]
  split_ifs <;> rfl

theorem applyStat_pid (p : Process) (d : StatData) :
    (applyStat p d).pid = p.pid := by
  simp only [applyStat]
  split_ifs <;> rfl

theorem applyStat_username (p : Process) (d : StatData) :
    (applyStat p d).username = p.username := by
  simp only [applyStat]
  split_ifs <;> rfl

theorem applyCmdline_utimeDiff (p : Process) (raw : List Char) :
    (applyCmdline p raw).utimeDiff = p.utimeDiff := rfl

theorem applyCmdline_stimeDiff (p : Process) (raw : List Char) :
    (applyCmdline p raw).stimeDiff = p.stimeDiff := rfl

theorem applyCmdline_pid (p : Process) (raw : List Char) :
    (applyCmdline p raw).pid = p.pid := rfl

theorem applyCmdline_username (p : Process) (raw : List Char) :
    (applyCmdline p raw).username = p.username := rfl

/-! ## Structure of successful `Process.Update` and `NewProcess` runs -/

theorem processUpdate_success_eq {users : List (Nat × String)} {wl : List String}
    {p : Process} {e : ProcEntry}
    (h : (processUpdate users wl p e).2 = true) :
    ∃ uid name d, e.dirUid = some uid ∧ userByUid users wl uid = some name ∧
      e.stat = some d ∧
      (processUpdate users wl p e).1 = applyStat { p with username := name } d := by
  cases hdir : e.dirUid with
  | none => simp [processUpdate, statProcDir, hdir] at h
  | some uid =>
    cases hub : userByUid users wl uid with
    | none => simp [processUpdate, statProcDir, hdir, hub] at h
    | some name =>
      cases hst : e.stat with
      | none => simp [processUpdate, statProcDir, hdir, hub, hst] at h
      | some d =>
        refine ⟨uid, name, d, rfl, hub, rfl, ?_⟩
        simp [processUpdate, statProcDir, hdir, hub, hst]

theorem newProcess_eq {users : List (Nat × String)} {wl : List String}
    {pid : Nat} {e : ProcEntry} {p : Process}
    (h : newProcess users wl pid e = some p) :
    (processUpdate users wl (blankProcess pid) e).2 = true ∧
    ((p = { (processUpdate users wl (blankProcess pid) e).1 with
            initializing := false }) ∨
     (∃ raw, e.cmdline = some raw ∧
      p = { applyCmdline (processUpdate users wl (blankProcess pid) e).1 raw with
            initializing := false })) := by
  simp only [newProcess] at h
  split at h
  · next hr2 =>
      refine ⟨hr2, ?_⟩
      split at h
      · exact Or.inl (Option.some.inj h).symm
      · cases hcl : e.cmdline with
        | none => rw [hcl] at h; cases h
        | some raw =>
          rw [hcl] at h
          exact Or.inr ⟨raw, rfl, (Option.some.inj h).symm⟩
  · cases h

/-! ## Claim C2 -/

/-- Counterexample to claim C2: a PID sampled for the first time whose
`utime` counter reads 7 gets `utime_diff = 7`, because `parseStatFile`
subtracts the previously stored counter, which is the zero value of a fresh
record — not 0 as the claim states. -/
theorem C2_first_sample_diff_not_zero :
    (newProcess [(0, "root")] [] 42 sampleEntry).map Process.utimeDiff = some 7 ∧
    (newProcess [(0, "root")] [] 42 sampleEntry).map Process.stimeDiff = some 3 ∧
    (7 : Nat) ≠ 0 ∧ (3 : Nat) ≠ 0 := by
  refine ⟨by decide, by decide, by decide, by decide⟩

/-- Amended claim C2: on the first sample of a PID, `utime_diff` and
`stime_diff` equal the sampled counters themselves reduced modulo `2 ^ 64`
(the previously stored counters of a fresh record are 0); on every later
`Update` of a surviving PID whose counters did not decrease, the diffs
equal the non-negative advance of the counters since the previous sample,
and are zero exactly when the counter did not advance. -/
theorem C2_diff_semantics :
    (∀ (users : List (Nat × String)) (wl : List String) (pid : Nat)
        (e : ProcEntry) (p : Process) (d : StatData),
      newProcess users wl pid e = some p → e.stat = some d →
      p.utimeDiff = d.utime % U64 ∧ p.stimeDiff = d.stime % U64) ∧
    (∀ (p : Process) (d : StatData),
      p.utime ≤ d.utime → d.utime < U64 → p.stime ≤ d.stime → d.stime < U64 →
      (applyStat p d).utimeDiff = d.utime - p.utime ∧
      (applyStat p d).stimeDiff = d.stime - p.stime ∧
      ((applyStat p d).utimeDiff = 0 ↔ d.utime = p.utime) ∧
      ((applyStat p d).stimeDiff = 0 ↔ d.stime = p.stime)) := by
  constructor
  · intro users wl pid e p d hnew hstat
    obtain ⟨hok, hbr⟩ := newProcess_eq hnew
    obtain ⟨uid, name, d', hdir, hub, hst, heq⟩ := processUpdate_success_eq hok
    rw [hstat] at hst
    obtain rfl : d = d' := Option.some.inj hst
    have hru : (processUpdate users wl (blankProcess pid) e).1.utimeDiff =
        d.utime % U64 := by
      rw [heq, applyStat_utimeDiff]
      exact u64sub_zero_right d.utime
    have hrs : (processUpdate users wl (blankProcess pid) e).1.stimeDiff =
        d.stime % U64 := by
      rw [heq, applyStat_stimeDiff]
      exact u64sub_zero_right d.stime
    rcases hbr with rfl | ⟨raw, hcl, rfl⟩
    · exact ⟨hru, hrs⟩
    · exact ⟨hru, hrs⟩
  · intro p d h1 h2 h3 h4
    rw [applyStat_utimeDiff, applyStat_stimeDiff,
        u64sub_eq_sub h1 h2, u64sub_eq_sub h3 h4]
    refine ⟨rfl, rfl, ?_, ?_⟩ <;> omega

/-- Witness for the amended claim C2, at the concrete first sample of the
counterexample entry (counters 7 and 3) and at a concrete re-sample whose
`utime` advanced from 7 to 9 while `stime` stayed at 3. -/
theorem C2_diff_semantics_witness :
    (sampleProc.utimeDiff = sampleStat7.utime % U64 ∧
     sampleProc.stimeDiff = sampleStat7.stime % U64) ∧
    ((applyStat sampleProc sampleStat9).utimeDiff =
       sampleStat9.utime - sampleProc.utime ∧
     (applyStat sampleProc sampleStat9).stimeDiff =
       sampleStat9.stime - sampleProc.stime ∧
     ((applyStat sampleProc sampleStat9).utimeDiff = 0 ↔
       sampleStat9.utime = sampleProc.utime) ∧
     ((applyStat sampleProc sampleStat9).stimeDiff = 0 ↔
       sampleStat9.stime = sampleProc.stime)) :=
  ⟨C2_diff_semantics.1 [(0, "root")] [] 42 sampleEntry sampleProc sampleStat7
      (by decide) rfl,
   C2_diff_semantics.2 sampleProc sampleStat9 (by decide)
      (by norm_num [sampleStat9, U64]) (by decide)
      (by norm_num [sampleStat9, U64])⟩

/-! ## Stat-line parsing lemmas -/

theorem strIndexByteAux_append_first {pre t : List Char} {c : Char}
    (h : c ∉ pre) :
    strIndexByteAux (pre ++ c :: t) c = some pre.length := by
  induction pre with
  | nil => simp [strIndexByteAux]
  | cons x xs ih =>
    have hx : ¬(x = c) := fun hxc => h (hxc ▸ List.mem_cons_self x xs)
    have hxs : c ∉ xs := fun hm => h (List.mem_cons_of_mem _ hm)
    simp [strIndexByteAux, hx, ih hxs]

theorem strLastIndexByteAux_spec {pre rest : List Char} {c : Char}
    (h : c ∉ rest) :
    strLastIndexByteAux (pre ++ c :: rest) c = some pre.length := by
  have hrev : (pre ++ c :: rest).reverse = rest.reverse ++ c :: pre.reverse := by
    simp
  have hnotin : c ∉ rest.reverse := by simpa using h
  rw [strLastIndexByteAux, hrev, strIndexByteAux_append_first hnotin]
  simp only [Option.map_some']
  congr 1
  simp only [List.length_append, List.length_cons, List.length_reverse]
  omega

theorem splitOnSpace_ne_nil (l : List Char) : splitOnSpace l ≠ [] := by
  cases l with
  | nil => decide
  | cons c rest =>
    unfold splitOnSpace
    split_ifs
    · simp
    · cases h : splitOnSpace rest <;> simp

theorem stateByteOfValues_splitOnSpace {s : Char} {more : List Char}
    (hs : ¬(s = ' ')) :
    stateByteOfValues (splitOnSpace (s :: more)) = some s := by
  unfold splitOnSpace stateByteOfValues
  rw [if_neg hs]
  cases h : splitOnSpace more with
  | nil => simp
  | cons g gs => simp

/-! ## Claim C9 -/

/-- Claim C9: for every stat line of the form
`pre ++ "(" ++ comm ++ ") " ++ state-field ++ ...` in which the first `(`
of the line opens the comm and the last `)` closes it — the prefix contains
no `(` and the tail after the comm contains no `)`, while the comm itself
may contain spaces and parentheses — `parseStatFile`'s slicing recovers the
comm exactly, and the field immediately after the closing parenthesis is
parsed as the single-character state byte (`values[statState][0]`).  For
records whose cmdline file is empty, the comm becomes both `Command` and
`Name`. -/
theorem C9_comm_roundtrip (pre comm : List Char) (s : Char) (rest : List Char)
    (hpre : '(' ∉ pre) (hrest : ')' ∉ s :: rest) (hs : ¬(s = ' ')) :
    (parseStatLine (pre ++ '(' :: (comm ++ ')' :: ' ' :: s :: rest))).1 = comm ∧
    stateByteOfValues
      (parseStatLine (pre ++ '(' :: (comm ++ ')' :: ' ' :: s :: rest))).2 = some s ∧
    (∀ (p : Process) (d : StatData), hasEmptyCmdlineFile p = true →
      (applyStat p d).command = String.mk d.comm ∧
      (applyStat p d).name = String.mk d.comm) := by
  have hline1 : pre ++ '(' :: (comm ++ ')' :: ' ' :: s :: rest) =
      (pre ++ '(' :: comm) ++ ')' :: ' ' :: s :: rest := by simp
  have hidx : strIndexByteAux (pre ++ '(' :: (comm ++ ')' :: ' ' :: s :: rest)) '(' =
      some pre.length := strIndexByteAux_append_first hpre
  have hnot2 : ')' ∉ (' ' :: s :: rest) := by
    intro hm
    rcases List.mem_cons.mp hm with h1 | h2
    · exact absurd h1 (by decide)
    · exact hrest h2
  have hlast : strLastIndexByteAux
      (pre ++ '(' :: (comm ++ ')' :: ' ' :: s :: rest)) ')' =
      some (pre.length + (comm.length + 1)) := by
    rw [hline1, strLastIndexByteAux_spec hnot2]
    simp
  refine ⟨?_, ?_, ?_⟩
  · show ((pre ++ '(' :: (comm ++ ')' :: ' ' :: s :: rest)).take _).drop _ = comm
    rw [hidx, hlast]
    have htoN1 : (((pre.length + (comm.length + 1) : Nat) : Int)).toNat =
        pre.length + (comm.length + 1) := Int.toNat_ofNat _
    have htoN2 : (((pre.length : Nat) : Int) + 1).toNat = pre.length + 1 := by
      omega
    rw [htoN1, htoN2]
    have ht : (pre ++ '(' :: (comm ++ ')' :: ' ' :: s :: rest)).take
        (pre.length + (comm.length + 1)) = pre ++ '(' :: comm := by
      rw [hline1]
      exact List.take_left' (by simp [Nat.add_comm])
    rw [ht, show pre ++ '(' :: comm = (pre ++ ['(']) ++ comm by simp]
    exact List.drop_left' (by simp)
  · show stateByteOfValues (splitOnSpace
      ((pre ++ '(' :: (comm ++ ')' :: ' ' :: s :: rest)).drop _)) = some s
    rw [hlast]
    have htoN3 : (((pre.length + (comm.length + 1) : Nat) : Int) + 2).toNat =
        pre.length + comm.length + 3 := by omega
    rw [htoN3]
    have hdrop : (pre ++ '(' :: (comm ++ ')' :: ' ' :: s :: rest)).drop
        (pre.length + comm.length + 3) = s :: rest := by
      rw [show pre ++ '(' :: (comm ++ ')' :: ' ' :: s :: rest) =
          (pre ++ '(' :: (comm ++ [')', ' '])) ++ s :: rest by simp]
      exact List.drop_left' (by simp [Nat.add_comm]; omega)
    rw [hdrop]
    exact stateByteOfValues_splitOnSpace hs
  · intro p d hempty
    constructor <;> · simp only [applyStat, hempty, if_true]

/-- Witness for claim C9 at the concrete stat line
`"42 (weird (name) with spaces) S 1 ..."` of spec property P6: the comm
`"weird (name) with spaces"` is recovered exactly and the next field is the
state byte `S`. -/
theorem C9_comm_roundtrip_witness :
    (parseStatLine ("42 ".data ++ '(' ::
        ("weird (name) with spaces".data ++ ')' :: ' ' :: 'S' :: " 1 42".data))).1 =
      "weird (name) with spaces".data ∧
    stateByteOfValues (parseStatLine ("42 ".data ++ '(' ::
        ("weird (name) with spaces".data ++ ')' :: ' ' :: 'S' :: " 1 42".data))).2 =
      some 'S' ∧
    (∀ (p : Process) (d : StatData), hasEmptyCmdlineFile p = true →
      (applyStat p d).command = String.mk d.comm ∧
      (applyStat p d).name = String.mk d.comm) :=
  C9_comm_roundtrip "42 ".data "weird (name) with spaces".data 'S' " 1 42".data
    (by decide) (by decide) (by decide)

/-! ## Association list lemmas for the PID map -/

theorem lookup_cons_self (l : List (Nat × Nat)) (k v : Nat) :
    List.lookup k ((k, v) :: l) = some v := by
  simp [List.lookup]

theorem lookup_cons_ne (l : List (Nat × Nat)) {k k2 : Nat} (v : Nat)
    (h : ¬(k = k2)) : List.lookup k ((k2, v) :: l) = List.lookup k l := by
  have hb : (k == k2) = false := beq_eq_false_iff_ne.mpr h
  simp [List.lookup, hb]

theorem lookup_mem : ∀ {l : List (Nat × Nat)} {k v : Nat},
    List.lookup k l = some v → (k, v) ∈ l := by
  intro l
  induction l with
  | nil => intro k v h; cases h
  | cons kv rest ih =>
    intro k v h
    obtain ⟨k2, v2⟩ := kv
    by_cases hk : k = k2
    · subst hk
      rw [lookup_cons_self] at h
      exact (Option.some.inj h) ▸ List.mem_cons_self _ _
    · rw [lookup_cons_ne rest v2 hk] at h
      exact List.mem_cons_of_mem _ (ih h)

theorem lookup_none_keys : ∀ {l : List (Nat × Nat)} {k : Nat},
    List.lookup k l = none → ∀ kv ∈ l, kv.1 ≠ k := by
  intro l
  induction l with
  | nil => intro k _ kv hkv; cases hkv
  | cons kv0 rest ih =>
    intro k h kv hkv
    obtain ⟨k2, v2⟩ := kv0
    by_cases hk : k = k2
    · subst hk; rw [lookup_cons_self] at h; cases h
    · rw [lookup_cons_ne rest v2 hk] at h
      rcases List.mem_cons.mp hkv with rfl | hkv2
      · exact fun hc => hk hc.symm
      · exact ih h kv hkv2

theorem lookup_filter_key (pred : Nat → Bool) :
    ∀ (l : List (Nat × Nat)) (k : Nat), pred k = true →
    List.lookup k (l.filter (fun kv => pred kv.1)) = List.lookup k l := by
  intro l
  induction l with
  | nil => intro k _; rfl
  | cons kv rest ih =>
    intro k hk
    obtain ⟨k2, v2⟩ := kv
    by_cases hpk : pred k2 = true
    · rw [List.filter_cons_of_pos (by simpa using hpk)]
      by_cases hkk : k = k2
      · subst hkk; rw [lookup_cons_self, lookup_cons_self]
      · rw [lookup_cons_ne _ v2 hkk, lookup_cons_ne _ v2 hkk, ih k hk]
    · rw [List.filter_cons_of_neg (by simpa using hpk)]
      have hkk : ¬(k = k2) := fun hc => hpk (hc ▸ hk)
      rw [lookup_cons_ne _ v2 hkk, ih k hk]

/-! ## More field lemmas for the process operations -/

theorem applyStat_alive (p : Process) (d : StatData) :
    (applyStat p d).alive = p.alive := by
  simp only [applyStat]
  split_ifs <;> rfl

theorem processUpdate_pid (users : List (Nat × String)) (wl : List String)
    (p : Process) (e : ProcEntry) :
    (processUpdate users wl p e).1.pid = p.pid := by
  cases hdir : e.dirUid with
  | none => simp [processUpdate, statProcDir, hdir]
  | some uid =>
    cases hub : userByUid users wl uid with
    | none => simp [processUpdate, statProcDir, hdir, hub]
    | some name =>
      cases hst : e.stat with
      | none => simp [processUpdate, statProcDir, hdir, hub, hst]
      | some d => simp [processUpdate, statProcDir, hdir, hub, hst, applyStat_pid]

theorem processUpdate_alive (users : List (Nat × String)) (wl : List String)
    (p : Process) (e : ProcEntry) :
    (processUpdate users wl p e).1.alive = p.alive := by
  cases hdir : e.dirUid with
  | none => simp [processUpdate, statProcDir, hdir]
  | some uid =>
    cases hub : userByUid users wl uid with
    | none => simp [processUpdate, statProcDir, hdir, hub]
    | some name =>
      cases hst : e.stat with
      | none => simp [processUpdate, statProcDir, hdir, hub, hst]
      | some d => simp [processUpdate, statProcDir, hdir, hub, hst, applyStat_alive]

theorem userByUid_mem {users : List (Nat × String)} {wl : List String}
    {uid : Nat} {name : String} (h : userByUid users wl uid = some name)
    (hwl : wl ≠ []) : name ∈ wl := by
  unfold userByUid at h
  cases hlk : List.lookup uid users with
  | none => rw [hlk] at h; cases h
  | some n =>
    rw [hlk] at h
    dsimp only at h
    split_ifs at h with h1 h2
    · exact absurd (List.isEmpty_iff.mp h1) hwl
    · obtain rfl : n = name := Option.some.inj h
      exact List.mem_of_elem_eq_true h2

theorem processUpdate_username_cases (users : List (Nat × String))
    (wl : List String) (p : Process) (e : ProcEntry) :
    (processUpdate users wl p e).1.username = p.username ∨
    ∃ uid name, e.dirUid = some uid ∧ userByUid users wl uid = some name ∧
      (processUpdate users wl p e).1.username = name := by
  cases hdir : e.dirUid with
  | none => left; simp [processUpdate, statProcDir, hdir]
  | some uid =>
    cases hub : userByUid users wl uid with
    | none => left; simp [processUpdate, statProcDir, hdir, hub]
    | some name =>
      right
      refine ⟨uid, name, rfl, hub, ?_⟩
      cases hst : e.stat with
      | none => simp [processUpdate, statProcDir, hdir, hub, hst]
      | some d =>
        simp [processUpdate, statProcDir, hdir, hub, hst, applyStat_username]

theorem processUpdate_username_mem {users : List (Nat × String)}
    {wl : List String} {p : Process} {e : ProcEntry}
    (h : (processUpdate users wl p e).2 = true) (hwl : wl ≠ []) :
    (processUpdate users wl p e).1.username ∈ wl := by
  obtain ⟨uid, name, _, _, hub, _, heq⟩ := processUpdate_success_eq h
  rw [heq, applyStat_username]
  exact userByUid_mem hub hwl

theorem newProcess_pid {users : List (Nat × String)} {wl : List String}
    {pid : Nat} {e : ProcEntry} {p : Process}
    (h : newProcess users wl pid e = some p) : p.pid = pid := by
  obtain ⟨_, hbr⟩ := newProcess_eq h
  have hbase : (processUpdate users wl (blankProcess pid) e).1.pid = pid :=
    processUpdate_pid users wl (blankProcess pid) e
  rcases hbr with rfl | ⟨raw, _, rfl⟩
  · exact hbase
  · exact hbase

theorem newProcess_username_mem {users : List (Nat × String)}
    {wl : List String} {pid : Nat} {e : ProcEntry} {p : Process}
    (h : newProcess users wl pid e = some p) (hwl : wl ≠ []) :
    p.username ∈ wl := by
  obtain ⟨hok, hbr⟩ := newProcess_eq h
  have hbase := processUpdate_username_mem hok hwl
  rcases hbr with rfl | ⟨raw, _, rfl⟩
  · exact hbase
  · exact hbase

/-! ## Preservation of the monitor invariant -/

theorem monitorInv_init : MonitorInv initMonitor := by
  refine ⟨List.nodup_nil, ?_, ?_, ?_, List.nodup_nil⟩
  · intro a ha; cases ha
  · intro a ha; cases ha
  · intro kv hkv; cases hkv

theorem monitorInv_fields {m m' : Monitor} (hl : m'.list = m.list)
    (hm : m'.map = m.map) (hh : m'.heap = m.heap) (hn : m'.next = m.next)
    (h : MonitorInv m) : MonitorInv m' := by
  unfold MonitorInv at h ⊢
  rw [hl, hm, hh, hn]
  exact h

theorem monitorInv_markDead {m : Monitor} (h : MonitorInv m) :
    MonitorInv (markDead m) := by
  obtain ⟨h1, h2, h3, h4, h5⟩ := h
  refine ⟨h1, h2, ?_, ?_, h5⟩
  · intro a ha
    obtain ⟨p, hp, hl⟩ := h3 a ha
    refine ⟨{ p with alive := false }, ?_, hl⟩
    show (if a ∈ m.list then (m.heap a).map _ else m.heap a) = _
    rw [if_pos (show a ∈ m.list from ha), hp]
    rfl
  · intro kv hkv
    obtain ⟨hmem, p, hp, hpid⟩ := h4 kv hkv
    refine ⟨hmem, { p with alive := false }, ?_, hpid⟩
    show (if kv.2 ∈ m.list then (m.heap kv.2).map _ else m.heap kv.2) = _
    rw [if_pos hmem, hp]
    rfl

theorem monitorInv_heapUpdate {m : Monitor} {a : Nat} {p2 : Process}
    (h : MonitorInv m) (hain : a ∈ m.list)
    (hpid : ∀ p, m.heap a = some p → p2.pid = p.pid) :
    MonitorInv { m with heap := fun x => if x = a then some p2 else m.heap x } := by
  obtain ⟨h1, h2, h3, h4, h5⟩ := h
  obtain ⟨pa, hpa, hla⟩ := h3 a hain
  have hp2pid : p2.pid = pa.pid := hpid pa hpa
  refine ⟨h1, h2, ?_, ?_, h5⟩
  · intro x hx
    by_cases hxa : x = a
    · subst hxa
      refine ⟨p2, by simp, ?_⟩
      rw [hp2pid]
      exact hla
    · obtain ⟨p', hp', hl'⟩ := h3 x hx
      exact ⟨p', by simp [hxa, hp'], hl'⟩
  · intro kv hkv
    obtain ⟨hm2, p', hp', hpid'⟩ := h4 kv hkv
    refine ⟨hm2, ?_⟩
    by_cases hxa : kv.2 = a
    · refine ⟨p2, by simp [hxa], ?_⟩
      have hpeq : pa = p' := by
        rw [hxa, hpa] at hp'
        exact Option.some.inj hp'
      rw [hp2pid, hpeq]
      exact hpid'
    · exact ⟨p', by simp [hxa, hp'], hpid'⟩

theorem monitorInv_insert {m : Monitor} {p2 : Process}
    (h : MonitorInv m) (hlk : List.lookup p2.pid m.map = none) :
    MonitorInv { m with
                 list := m.list ++ [m.next]
                 map := (p2.pid, m.next) :: m.map
                 heap := fun x => if x = m.next then some p2 else m.heap x
                 next := m.next + 1 } := by
  obtain ⟨h1, h2, h3, h4, h5⟩ := h
  have hfresh : m.next ∉ m.list := fun hmem => lt_irrefl _ (h2 _ hmem)
  refine ⟨?_, ?_, ?_, ?_, ?_⟩
  · rw [List.nodup_append]
    refine ⟨h1, List.nodup_singleton _, ?_⟩
    intro x hx hx2
    rw [List.mem_singleton] at hx2
    exact hfresh (hx2 ▸ hx)
  · intro x hx
    rcases List.mem_append.mp hx with hx1 | hx2
    · exact Nat.lt_succ_of_lt (h2 x hx1)
    · rw [List.mem_singleton] at hx2
      subst hx2
      exact Nat.lt_succ_self _
  · intro x hx
    rcases List.mem_append.mp hx with hx1 | hx2
    · obtain ⟨p', hp', hl'⟩ := h3 x hx1
      have hxne : ¬(x = m.next) := fun hc => hfresh (hc ▸ hx1)
      refine ⟨p', by simp [hxne, hp'], ?_⟩
      have hpidne : ¬(p'.pid = p2.pid) := by
        intro hc
        rw [hc] at hl'
        rw [hl'] at hlk
        cases hlk
      rw [lookup_cons_ne _ _ hpidne]
      exact hl'
    · rw [List.mem_singleton] at hx2
      subst hx2
      exact ⟨p2, by simp, lookup_cons_self _ _ _⟩
  · intro kv hkv
    rcases List.mem_cons.mp hkv with rfl | hkv2
    · exact ⟨List.mem_append.mpr (Or.inr (List.mem_singleton.mpr rfl)),
             p2, by simp, rfl⟩
    · obtain ⟨hm2, p', hp', hpid'⟩ := h4 kv hkv2
      have hne : ¬(kv.2 = m.next) := fun hc => hfresh (hc ▸ hm2)
      exact ⟨List.mem_append.mpr (Or.inl hm2), p', by simp [hne, hp'], hpid'⟩
  · rw [List.map_cons]
    refine List.nodup_cons.mpr ⟨?_, h5⟩
    intro hmem
    obtain ⟨kv, hkv, hfst⟩ := List.mem_map.mp hmem
    exact (lookup_none_keys hlk kv hkv) hfst

theorem monitorInv_updateEntry (cfg : Config) (users : List (Nat × String))
    {m : Monitor} (e : ProcEntry) (h : MonitorInv m) :
    MonitorInv (updateEntry cfg users m e) := by
  obtain ⟨h1, h2, h3, h4, h5⟩ := h
  have h : MonitorInv m := ⟨h1, h2, h3, h4, h5⟩
  unfold updateEntry
  by_cases hwl : pidWhitelisted cfg.pidWhitelist e.pid = true
  · rw [if_neg (not_not_intro hwl)]
    cases hlk : List.lookup e.pid m.map with
    | some a =>
      dsimp only
      cases hha : m.heap a with
      | none => exact h
      | some p =>
        dsimp only
        have hmem : (e.pid, a) ∈ m.map := lookup_mem hlk
        have hain : a ∈ m.list := (h4 _ hmem).1
        apply monitorInv_heapUpdate h hain
        intro p' hp'
        obtain rfl : p = p' := by
          rw [hha] at hp'
          exact Option.some.inj hp'
        split_ifs
        · exact processUpdate_pid users cfg.userWhitelist p e
        · exact processUpdate_pid users cfg.userWhitelist p e
    | none =>
      dsimp only
      cases hnp : newProcess users cfg.userWhitelist e.pid e with
      | none => exact h
      | some pnew =>
        dsimp only
        split_ifs with hker
        · exact h
        · have hpid0 : pnew.pid = e.pid := newProcess_pid hnp
          have hpid : ({ pnew with alive := true } : Process).pid = e.pid := hpid0
          apply monitorInv_insert h
          rw [hpid]
          exact hlk
  · rw [if_pos hwl]
    exact h

theorem isAliveAt_iff {heap : Nat → Option Process} {a : Nat} :
    isAliveAt heap a = true ↔ ∃ p, heap a = some p ∧ p.alive = true := by
  cases h : heap a <;> simp [isAliveAt, h]

theorem inv_pid_inj {m : Monitor} (h : MonitorInv m) :
    ∀ x ∈ m.list, ∀ y ∈ m.list, ∀ px py, m.heap x = some px →
      m.heap y = some py → px.pid = py.pid → x = y := by
  obtain ⟨h1, h2, h3, h4, h5⟩ := h
  intro x hx y hy px py hpx hpy hpid
  obtain ⟨p1, hp1, hl1⟩ := h3 x hx
  obtain ⟨p2, hp2, hl2⟩ := h3 y hy
  rw [hpx] at hp1
  obtain rfl : px = p1 := Option.some.inj hp1
  rw [hpy] at hp2
  obtain rfl : py = p2 := Option.some.inj hp2
  rw [hpid] at hl1
  exact Option.some.inj (hl1.symm.trans hl2)

theorem mem_deadPidsOf {m : Monitor} {k : Nat} :
    k ∈ deadPidsOf m ↔
    ∃ a p, a ∈ m.list ∧ isAliveAt m.heap a = false ∧ m.heap a = some p ∧
      p.pid = k := by
  unfold deadPidsOf
  rw [List.mem_filterMap]
  constructor
  · rintro ⟨a, ha, hmap⟩
    obtain ⟨hal, hdead⟩ := List.mem_filter.mp ha
    obtain ⟨p, hp, hpk⟩ := Option.map_eq_some'.mp hmap
    exact ⟨a, p, hal, by simpa using hdead, hp, hpk⟩
  · rintro ⟨a, p, hal, hdead, hp, hpk⟩
    refine ⟨a, List.mem_filter.mpr ⟨hal, by simpa using hdead⟩, ?_⟩
    rw [hp]
    simpa using hpk

theorem monitorInv_removeDead {m : Monitor} (h : MonitorInv m) :
    MonitorInv (removeDead m) := by
  have hinj := inv_pid_inj h
  obtain ⟨h1, h2, h3, h4, h5⟩ := h
  refine ⟨?_, ?_, ?_, ?_, ?_⟩
  · exact h1.filter _
  · intro a ha
    exact h2 a (List.mem_filter.mp ha).1
  · intro a ha
    obtain ⟨hmem, halive⟩ := List.mem_filter.mp ha
    obtain ⟨p, hp, hl⟩ := h3 a hmem
    refine ⟨p, hp, ?_⟩
    have hnotdead : p.pid ∉ deadPidsOf m := by
      intro hk
      obtain ⟨a', p', ha', hdead', hp', hpk'⟩ := mem_deadPidsOf.mp hk
      have : a' = a := hinj a' ha' a hmem p' p hp' hp hpk'
      subst this
      rw [hdead'] at halive
      cases halive
    have hcont : ((deadPidsOf m).contains p.pid) = false := by
      cases hc : (deadPidsOf m).contains p.pid
      · rfl
      · exact absurd (List.mem_of_elem_eq_true hc) hnotdead
    exact (lookup_filter_key (fun k => !((deadPidsOf m).contains k)) m.map
      p.pid (by simpa using hnotdead)).trans hl
  · intro kv hkv
    obtain ⟨hkvm, hkvp⟩ := List.mem_filter.mp hkv
    obtain ⟨hm2, p, hp, hpid⟩ := h4 kv hkvm
    refine ⟨?_, p, hp, hpid⟩
    have halive : isAliveAt m.heap kv.2 = true := by
      cases hal : isAliveAt m.heap kv.2
      · exfalso
        have hk : kv.1 ∈ deadPidsOf m :=
          mem_deadPidsOf.mpr ⟨kv.2, p, hm2, hal, hp, hpid⟩
        have hct : (deadPidsOf m).contains kv.1 = true :=
          List.elem_eq_true_of_mem hk
        rw [hct] at hkvp
        cases hkvp
      · rfl
    exact List.mem_filter.mpr ⟨hm2, halive⟩
  · exact ((List.filter_sublist _).map Prod.fst).nodup h5

theorem insertSorted_perm {α : Type} (less : α → α → Bool) (x : α) :
    ∀ l : List α, (insertSorted less x l).Perm (x :: l)
  | [] => List.Perm.refl _
  | y :: ys => by
    unfold insertSorted
    split_ifs
    · exact ((insertSorted_perm less x ys).cons y).trans
        (List.Perm.swap x y ys)
    · exact List.Perm.refl _

theorem insSort_perm {α : Type} (less : α → α → Bool) :
    ∀ l : List α, (insSort less l).Perm l
  | [] => List.Perm.refl _
  | x :: xs => by
    unfold insSort
    exact (insertSorted_perm less x (insSort less xs)).trans
      ((insSort_perm less xs).cons x)

theorem monitorInv_permList {m : Monitor} {l' : List Nat}
    (h : MonitorInv m) (hperm : l'.Perm m.list) :
    MonitorInv { m with list := l' } := by
  obtain ⟨h1, h2, h3, h4, h5⟩ := h
  refine ⟨hperm.nodup_iff.mpr h1, ?_, ?_, ?_, h5⟩
  · intro a ha
    exact h2 a (hperm.mem_iff.mp ha)
  · intro a ha
    exact h3 a (hperm.mem_iff.mp ha)
  · intro kv hkv
    obtain ⟨hm2, hrest⟩ := h4 kv hkv
    exact ⟨hperm.mem_iff.mpr hm2, hrest⟩

theorem monitorInv_sortMonitor (cfg : Config) {m : Monitor}
    (h : MonitorInv m) : MonitorInv (sortMonitor cfg m) := by
  unfold sortMonitor
  split_ifs with htree
  · exact monitorInv_permList h (insSort_perm _ _)
  · cases hcl : chooseLess cfg.sortFlag with
    | none => exact h
    | some less => exact monitorInv_permList h (insSort_perm _ _)

theorem monitorInv_foldl_updateEntry (cfg : Config)
    (users : List (Nat × String)) :
    ∀ (es : List ProcEntry) {m : Monitor}, MonitorInv m →
      MonitorInv (es.foldl (updateEntry cfg users) m)
  | [], _, h => h
  | e :: es, m, h => by
    rw [List.foldl_cons]
    exact monitorInv_foldl_updateEntry cfg users es
      (monitorInv_updateEntry cfg users e h)

theorem monitorInv_monitorUpdate (cfg : Config) (users : List (Nat × String))
    {m : Monitor} (snap : Snapshot) (h : MonitorInv m) :
    MonitorInv (monitorUpdate cfg users m snap) := by
  unfold monitorUpdate
  apply monitorInv_sortMonitor
  apply monitorInv_removeDead
  apply monitorInv_foldl_updateEntry
  apply monitorInv_markDead
  exact monitorInv_fields rfl rfl rfl rfl h

theorem monitorInv_runMonitor (cfg : Config) (users : List (Nat × String))
    (snaps : List Snapshot) : MonitorInv (runMonitor cfg users snaps) := by
  unfold runMonitor
  have hgen : ∀ (ss : List Snapshot) (m : Monitor), MonitorInv m →
      MonitorInv (ss.foldl (monitorUpdate cfg users) m) := by
    intro ss
    induction ss with
    | nil => exact fun m h => h
    | cons s ss ih =>
      intro m h
      rw [List.foldl_cons]
      exact ih _ (monitorInv_monitorUpdate cfg users s h)
  exact hgen snaps initMonitor monitorInv_init

theorem synced_of_inv {m : Monitor} (h : MonitorInv m) : listMapSynced m := by
  have hinv := h
  obtain ⟨h1, h2, h3, h4, h5⟩ := h
  refine ⟨?_, h3, fun kv hkv => (h4 kv hkv).1⟩
  have hpidOf : ∀ a ∈ m.list, ∃ p, m.heap a = some p := fun a ha =>
    ⟨(h3 a ha).choose, (h3 a ha).choose_spec.1⟩
  classical
  let pidOf : Nat → Nat := fun a => ((m.heap a).map Process.pid).getD 0
  have hpid_eq : ∀ a p, m.heap a = some p → pidOf a = p.pid := by
    intro a p hp
    simp [pidOf, hp]
  have hinj : ∀ x ∈ m.list, ∀ y ∈ m.list, pidOf x = pidOf y → x = y := by
    intro x hx y hy hxy
    obtain ⟨px, hpx⟩ := hpidOf x hx
    obtain ⟨py, hpy⟩ := hpidOf y hy
    rw [hpid_eq x px hpx, hpid_eq y py hpy] at hxy
    exact inv_pid_inj hinv x hx y hy px py hpx hpy hxy
  have hnodup1 : (m.list.map pidOf).Nodup :=
    (List.nodup_map_iff_inj_on h1).mpr hinj
  have hsub1 : m.list.map pidOf ⊆ m.map.map Prod.fst := by
    intro k hk
    obtain ⟨a, ha, rfl⟩ := List.mem_map.mp hk
    obtain ⟨p, hp, hl⟩ := h3 a ha
    rw [hpid_eq a p hp]
    exact List.mem_map_of_mem Prod.fst (lookup_mem hl)
  have hsub2 : m.map.map Prod.fst ⊆ m.list.map pidOf := by
    intro k hk
    obtain ⟨kv, hkv, rfl⟩ := List.mem_map.mp hk
    obtain ⟨hm2, p, hp, hpid⟩ := h4 kv hkv
    rw [← hpid, ← hpid_eq kv.2 p hp]
    exact List.mem_map_of_mem pidOf hm2
  have e1 : (m.list.map pidOf).length ≤ (m.map.map Prod.fst).length :=
    (List.subperm_of_subset hnodup1 hsub1).length_le
  have e2 : (m.map.map Prod.fst).length ≤ (m.list.map pidOf).length :=
    (List.subperm_of_subset h5 hsub2).length_le
  have := le_antisymm e1 e2
  simpa using this

/-! ## Claim C8 -/

/-- Claim C8: for every sequence of `Monitor.Update` calls starting from a
fresh `NewMonitor`, the list and the map are in sync at the end of each
update: they have the same size, every process in the list is stored in the
map under its own PID, and every map entry appears in the list (spec
invariant I1, property P1). -/
theorem C8_list_map_sync (cfg : Config) (users : List (Nat × String))
    (snaps : List Snapshot) : listMapSynced (runMonitor cfg users snaps) :=
  synced_of_inv (monitorInv_runMonitor cfg users snaps)

/-! ## User whitelist propagation (claim C5)

The running property: every record reachable from the list that is marked
alive belongs to a whitelisted user.  Marking everything dead establishes
it vacuously; the entry loop marks a record alive only after a successful
`statProcDir`, whose `UserByUid` lookup enforces the whitelist. -/

/-- Alive records reachable from the list carry whitelisted usernames. -/
def aliveWhitelisted (wl : List String) (m : Monitor) : Prop :=
  ∀ a ∈ m.list, ∀ p, m.heap a = some p → p.alive = true → p.username ∈ wl

theorem aliveWhitelisted_markDead (wl : List String) (m : Monitor) :
    aliveWhitelisted wl (markDead m) := by
  intro a ha p hp halive
  exfalso
  have ha' : a ∈ m.list := ha
  simp only [markDead] at hp
  rw [if_pos ha'] at hp
  cases hq : m.heap a with
  | none => rw [hq] at hp; cases hp
  | some q =>
    rw [hq] at hp
    simp only [Option.map_some'] at hp
    obtain rfl := Option.some.inj hp
    cases halive

theorem aliveWhitelisted_updateEntry (cfg : Config)
    (users : List (Nat × String)) (e : ProcEntry)
    (hwl : cfg.userWhitelist ≠ []) {m : Monitor}
    (h : aliveWhitelisted cfg.userWhitelist m) :
    aliveWhitelisted cfg.userWhitelist (updateEntry cfg users m e) := by
  unfold updateEntry
  by_cases hpw : pidWhitelisted cfg.pidWhitelist e.pid = true
  · rw [if_neg (not_not_intro hpw)]
    cases hlk : List.lookup e.pid m.map with
    | some a =>
      dsimp only
      cases hha : m.heap a with
      | none => exact h
      | some p =>
        dsimp only
        intro x hx px hpx halive
        dsimp only at hpx
        have hxl : x ∈ m.list := hx
        by_cases hxa : x = a
        · subst hxa
          rw [if_pos rfl] at hpx
          obtain rfl := Option.some.inj hpx
          by_cases hok : (processUpdate users cfg.userWhitelist p e).2 = true
          · rw [if_pos hok] at halive ⊢
            exact processUpdate_username_mem hok hwl
          · rw [if_neg hok] at halive ⊢
            have halivep : p.alive = true := by
              rw [processUpdate_alive] at halive
              exact halive
            have hpmem := h x hxl p hha halivep
            rcases processUpdate_username_cases users cfg.userWhitelist p e with
              hsame | ⟨uid, name, _, hub, hname⟩
            · rw [hsame]
              exact hpmem
            · rw [hname]
              exact userByUid_mem hub hwl
        · rw [if_neg hxa] at hpx
          exact h x hxl px hpx halive
    | none =>
      dsimp only
      cases hnp : newProcess users cfg.userWhitelist e.pid e with
      | none => exact h
      | some pnew =>
        dsimp only
        split_ifs with hker
        · exact h
        · intro x hx px hpx halive
          dsimp only at hpx
          by_cases hxn : x = m.next
          · subst hxn
            rw [if_pos rfl] at hpx
            obtain rfl := Option.some.inj hpx
            have hpu : pnew.username ∈ cfg.userWhitelist :=
              newProcess_username_mem hnp hwl
            exact hpu
          · rw [if_neg hxn] at hpx
            have hxl : x ∈ m.list := by
              rcases List.mem_append.mp hx with h1 | h2
              · exact h1
              · rw [List.mem_singleton] at h2
                exact absurd h2 hxn
            exact h x hxl px hpx halive
  · rw [if_pos hpw]
    exact h

theorem aliveWhitelisted_foldl (cfg : Config) (users : List (Nat × String))
    (hwl : cfg.userWhitelist ≠ []) :
    ∀ (es : List ProcEntry) {m : Monitor},
      aliveWhitelisted cfg.userWhitelist m →
      aliveWhitelisted cfg.userWhitelist (es.foldl (updateEntry cfg users) m)
  | [], _, h => h
  | e :: es, m, h => by
    rw [List.foldl_cons]
    exact aliveWhitelisted_foldl cfg users hwl es
      (aliveWhitelisted_updateEntry cfg users e hwl h)

/-- Every record reachable from the list is whitelisted (no aliveness
restriction); this is the state after pruning. -/
def listWhitelisted (wl : List String) (m : Monitor) : Prop :=
  ∀ a ∈ m.list, ∀ p, m.heap a = some p → p.username ∈ wl

theorem listWhitelisted_removeDead {wl : List String} {m : Monitor}
    (h : aliveWhitelisted wl m) : listWhitelisted wl (removeDead m) := by
  intro a ha p hp
  obtain ⟨hmem, halive⟩ := List.mem_filter.mp ha
  obtain ⟨q, hq, hqalive⟩ := isAliveAt_iff.mp halive
  have hp2 : m.heap a = some p := hp
  rw [hq] at hp2
  obtain rfl : q = p := Option.some.inj hp2
  exact h a hmem q hq hqalive

theorem listWhitelisted_sortMonitor (cfg : Config) {wl : List String}
    {m : Monitor} (h : listWhitelisted wl m) :
    listWhitelisted wl (sortMonitor cfg m) := by
  unfold sortMonitor
  split_ifs with htree
  · intro a ha
    exact h a ((insSort_perm _ _).mem_iff.mp ha)
  · cases hcl : chooseLess cfg.sortFlag with
    | none => exact h
    | some less =>
      intro a ha
      exact h a ((insSort_perm _ _).mem_iff.mp ha)

theorem listWhitelisted_monitorUpdate (cfg : Config)
    (users : List (Nat × String)) (snap : Snapshot)
    (hwl : cfg.userWhitelist ≠ []) (m : Monitor) :
    listWhitelisted cfg.userWhitelist (monitorUpdate cfg users m snap) := by
  unfold monitorUpdate
  apply listWhitelisted_sortMonitor
  apply listWhitelisted_removeDead
  exact aliveWhitelisted_foldl cfg users hwl snap.entries
    (aliveWhitelisted_markDead cfg.userWhitelist _)

theorem listWhitelisted_runMonitor (cfg : Config)
    (users : List (Nat × String)) (snaps : List Snapshot)
    (hwl : cfg.userWhitelist ≠ []) :
    listWhitelisted cfg.userWhitelist (runMonitor cfg users snaps) := by
  unfold runMonitor
  have hgen : ∀ (ss : List Snapshot) (m : Monitor),
      listWhitelisted cfg.userWhitelist m →
      listWhitelisted cfg.userWhitelist (ss.foldl (monitorUpdate cfg users) m) := by
    intro ss
    induction ss with
    | nil => exact fun m h => h
    | cons s ss ih =>
      intro m _
      rw [List.foldl_cons]
      exact ih _ (listWhitelisted_monitorUpdate cfg users s hwl m)
  exact hgen snaps initMonitor (fun a ha => absurd ha (List.not_mem_nil a))

/-! ## Claim C5 -/

/-- Claim C5: when a user allow-list is configured (spec-modelled
`UserByUid` resolves UIDs outside it to an error which `Update` treats as
"skip this process"), then after any sequence of `Update`s, every process
record reachable from the Monitor's list — and every record reachable
through a map entry — is owned by a whitelisted user; processes of other
users never survive an update. -/
theorem C5_user_whitelist_filters (cfg : Config)
    (users : List (Nat × String)) (snaps : List Snapshot)
    (hwl : cfg.userWhitelist ≠ []) :
    (∀ a p, a ∈ (runMonitor cfg users snaps).list →
      (runMonitor cfg users snaps).heap a = some p →
      p.username ∈ cfg.userWhitelist) ∧
    (∀ k a p, (k, a) ∈ (runMonitor cfg users snaps).map →
      (runMonitor cfg users snaps).heap a = some p →
      p.username ∈ cfg.userWhitelist) := by
  have hF := listWhitelisted_runMonitor cfg users snaps hwl
  constructor
  · intro a p ha hp
    exact hF a ha p hp
  · intro k a p hkv hp
    have hInv := monitorInv_runMonitor cfg users snaps
    have hmem : a ∈ (runMonitor cfg users snaps).list :=
      (hInv.2.2.2.1 (k, a) hkv).1
    exact hF a hmem p hp

/-- Witness for claim C5 at a concrete one-tick run with whitelist
`["alice"]`: the surviving record is owned by alice. -/
theorem C5_user_whitelist_filters_witness :
    sampleRunProc.username ∈ sampleCfg.userWhitelist :=
  (C5_user_whitelist_filters sampleCfg sampleUsers [sampleSnap]
      (by decide)).1 0 sampleRunProc (by decide) (by decide)

end JTop
